import Mathlib

/-!
Verification of the LinkAPP chat server (`server.py`) against its
natural-language specification.  The Python code is shallowly embedded:
pure helpers become Lean functions, the server's shared mutable state
(`self.clients`, the SQLite tables, `self.group_calls`, the UDP endpoint
tables) becomes an explicit state record threaded through per-handler
step functions.  Machine integers do not occur (Python ints are
unbounded); byte values are `Nat` with explicit `< 256` bounds where the
code constructs `bytes`.
-/

namespace LinkAPP

/-! ## Encryption layer (`encrypt_data` / `decrypt_data`, server.py lines 74-92) -/

/-- `ENCRYPTION_KEY = "SecureKey2024"` (server.py line 23). -/
def ENCRYPTION_KEY : String := "SecureKey2024"

/-- The key byte used at position `i`:
`ord(ENCRYPTION_KEY[i % len(ENCRYPTION_KEY)])`. -/
def keyByte (i : Nat) : Nat :=
  (ENCRYPTION_KEY.toList.getD (i % ENCRYPTION_KEY.length) 'S').toNat

/-- The XOR loop of `encrypt_data`/`decrypt_data`, starting at key index `i`:
`[b ^ ord(ENCRYPTION_KEY[i % len]) for i, b in enumerate(...)]`. -/
def xorFrom (i : Nat) : List Nat → List Nat
  | [] => []
  | b :: rest => (b ^^^ keyByte i) :: xorFrom (i + 1) rest

/-- The standard base64 alphabet used by `base64.b64encode`. -/
def b64chars : List Char :=
  "ABCDEFGHIJKLMNOPQRSTUVWXYZabcdefghijklmnopqrstuvwxyz0123456789+/".toList

/-- Character for a 6-bit group. -/
def sextetChar (n : Nat) : Char := b64chars.getD n 'A'

/-- Index of a base64 character in the alphabet. -/
def charSextet (c : Char) : Nat := b64chars.findIdx (· = c)

/-- `base64.b64encode` on a list of byte values, producing the padded
standard-alphabet character stream. -/
def b64encode : List Nat → List Char
  | [] => []
  | [a] => [sextetChar (a / 4), sextetChar (a % 4 * 16), '=', '=']
  | [a, b] => [sextetChar (a / 4), sextetChar (a % 4 * 16 + b / 16),
               sextetChar (b % 16 * 4), '=']
  | a :: b :: c :: rest =>
      sextetChar (a / 4) :: sextetChar (a % 4 * 16 + b / 16) ::
      sextetChar (b % 16 * 4 + c / 64) :: sextetChar (c % 64) :: b64encode rest

/-- `base64.b64decode` on correctly padded input (the only inputs the
server ever feeds it in reachable states: outputs of `encrypt_data`).
On malformed input the Python library raises and `decrypt_data` answers
`"[Error]"`; that branch is unreachable for round trips and not modelled. -/
def b64decode : List Char → List Nat
  | c1 :: c2 :: c3 :: c4 :: rest =>
      if c3 = '=' then [charSextet c1 * 4 + charSextet c2 / 16]
      else if c4 = '=' then
        [charSextet c1 * 4 + charSextet c2 / 16,
         charSextet c2 % 16 * 16 + charSextet c3 / 4]
      else
        [charSextet c1 * 4 + charSextet c2 / 16,
         charSextet c2 % 16 * 16 + charSextet c3 / 4,
         charSextet c3 % 4 * 64 + charSextet c4] ++ b64decode rest
  | _ => []

/-- `encrypt_data(text)` (server.py lines 74-80): `None` for falsy (empty)
input, otherwise base64 of the XOR-with-repeating-key byte string.
Note the Python `bytes([...])` constructor raises a `ValueError` whenever
some `ord(c) ^ key` is `≥ 256`; `encryptableB` below captures exactly when
the call succeeds, and the callers model the exception explicitly. -/
def encrypt_data (text : String) : Option String :=
  if text = "" then none
  else some (String.mk (b64encode (xorFrom 0 (text.toList.map Char.toNat))))

/-- `True` iff `encrypt_data` completes without raising: every XOR of a
code point with its key byte fits in one byte. -/
def encryptableB (text : String) : Bool :=
  (xorFrom 0 (text.toList.map Char.toNat)).all (· < 256)

/-- `decrypt_data(encrypted)` (server.py lines 82-92): `None` for falsy
input, otherwise base64-decode then XOR with the repeating key, the
resulting byte values re-read as characters via `chr`. -/
def decrypt_data (encrypted : Option String) : Option String :=
  match encrypted with
  | none => none
  | some s =>
      if s = "" then none
      else some (String.mk ((xorFrom 0 (b64decode s.toList)).map Char.ofNat))

end LinkAPP

namespace LinkAPP

/-! ## Server data model

The SQLite tables and the in-memory dictionaries of `ChatServer` become an
explicit state record.  Group membership rows are stored in the database as
`encrypt_data(json.dumps(members))`; since `json.dumps` emits pure ASCII
(`ensure_ascii=True`), that encoding round-trips losslessly through
`encrypt_data`/`decrypt_data`/`json.loads`, so the model identifies the
column with its decoded value, a `List String`.  Private-message content is
kept exactly as stored: the `Option String` produced by `encrypt_data`. -/

/-- One row of the `messages` table (sender, receiver, encrypted content,
msg_type, timestamp); `id` is the list position, timestamps are `Nat`. -/
structure MsgRec where
  sender : String
  receiver : String
  content : Option String
  msg_type : String
  timestamp : Nat
deriving DecidableEq

/-- One row of the `groups` table. -/
structure GroupRec where
  name : String
  pin_hash : String
  creator : String
  members : List String
  created_at : Nat
deriving DecidableEq

/-- The server's shared state: the three SQLite tables plus the in-memory
`self.clients` registry (username → socket: the username doubles as the
socket identity) and `self.group_calls` rosters. -/
structure ServerState where
  users : List (String × String)
  messages : List MsgRec
  groups : List GroupRec
  clients : List String
  group_calls : List (String × List String)
deriving DecidableEq

/-- Where a JSON push goes: back on the requesting connection (`conn`), or
to the socket registered for a username (`self.clients[u]`). -/
inductive Dest where
  | toConn : Dest
  | toUser (u : String) : Dest
deriving DecidableEq

/-- One element of the `data` list in a `history` push:
`{'sender':…, 'content':…, 'type':…}`. -/
structure HistEntry where
  sender : String
  content : Option String
  msg_type : String
deriving DecidableEq

/-- The JSON payloads the server sends (`send_json` calls), by `type`. -/
inductive ServerMsg where
  | authResult (success : Bool) (message : String) : ServerMsg
  | text (sender : String) (content : String) : ServerMsg
  | privateMsg (sender : String) (content : String) : ServerMsg
  | fileMsg (sender : String) (filename : String) (content : String) : ServerMsg
  | historyMsg (withUser : String) (data : List HistEntry) : ServerMsg
  | callSignal (ty : String) (sender : String) (target : String) (mode : String) : ServerMsg
  | groupMsg (room : String) (sender : String) (content : String) : ServerMsg
  | groupFile (room : String) (sender : String) (filename : String) (content : String) : ServerMsg
  | groupCall (room : String) (sender : String) (mode : String) : ServerMsg
  | groupCallAccept (room : String) (sender : String) : ServerMsg
  | groupVoice (room : String) (sender : String) (content : String) (duration : Nat) : ServerMsg
  | userList (users : List (String × String)) : ServerMsg
  | allGroupsList (groups : List String) : ServerMsg
  | myGroupsList (groups : List (String × String)) : ServerMsg
deriving DecidableEq

/-- A send performed by a handler. -/
abbrev Output := Dest × ServerMsg

/-- Python dictionary assignment `d[k] = v` on an association list whose
keys are unique (every table in the server starts empty and is only
written through this operation): overwrite the value in place if the key
exists, else append, preserving dict insertion order. -/
def dictInsert {α β : Type} [BEq α] (k : α) (v : β) : List (α × β) → List (α × β)
  | [] => [(k, v)]
  | (a, b) :: t => if a == k then (k, v) :: t else (a, b) :: dictInsert k v t

/-- `SELECT … FROM groups WHERE name=?` (first matching row; `name` is the
primary key). -/
def lookupGroup (groups : List GroupRec) (g : String) : Option GroupRec :=
  groups.find? (fun r => r.name == g)

/-- `UPDATE groups SET members=? WHERE name=?`. -/
def updateGroupMembers (groups : List GroupRec) (g : String) (ms : List String) :
    List GroupRec :=
  groups.map (fun r => if r.name == g then { r with members := ms } else r)

/-- Membership list of a group as stored, `[]` when the group is unknown. -/
def groupMembers (st : ServerState) (g : String) : List String :=
  ((lookupGroup st.groups g).map (fun r => r.members)).getD []

/-- The in-memory call roster of a room (`self.group_calls`), `[]` when the
room has no entry. -/
def rosterOf (st : ServerState) (g : String) : List String :=
  (st.group_calls.lookup g).getD []

end LinkAPP

namespace LinkAPP

/-! ## Handlers (server.py, methods of `ChatServer`)

Each handler becomes a function from the state and the fields of the
incoming JSON message to the new state and the list of sends.  Python's
falsy test `if not x` on a string field is `x = ""` (a missing field is
treated like the empty string).  The acting `username` is the identity
bound to the connection by a successful login; requests sent before login
carry `username = None` in Python and never touch the registry, the roster
or (without raising) the durable tables, so the model ranges over `String`
users.  A handler that can raise an uncaught exception (tearing the
connection down via the `finally` block of `handle_client`) returns
`Except Unit …`. -/

variable (hashp : String → String)

/-- `handle_signup` (lines 249-268); the `sqlite3.IntegrityError` on a
duplicate primary key is the first-match lookup test. -/
def handle_signup (st : ServerState) (username password : String) :
    ServerState × List Output :=
  if username = "" ∨ password = "" then
    (st, [(.toConn, .authResult false "Invalid credentials")])
  else
    match st.users.lookup username with
    | some _ => (st, [(.toConn, .authResult false "Username exists")])
    | none =>
        ({ st with users := st.users ++ [(username, hashp password)] },
         [(.toConn, .authResult true "Account created")])

/-- `handle_login` (lines 270-292): returns the authenticated username (or
`none`) plus the `auth_result` send. -/
def handle_login (st : ServerState) (username password : String) :
    Option String × List Output :=
  if username = "" ∨ password = "" then
    (none, [(.toConn, .authResult false "Invalid credentials")])
  else
    match st.users.lookup username with
    | some pwdHash =>
        if pwdHash = hashp password then
          if username ∈ st.clients then
            (none, [(.toConn, .authResult false "Already logged in")])
          else
            (some username, [(.toConn, .authResult true "Login successful")])
        else (none, [(.toConn, .authResult false "Invalid credentials")])
    | none => (none, [(.toConn, .authResult false "Invalid credentials")])

/-- `broadcast_user_list` (lines 642-653). -/
def broadcast_user_list (st : ServerState) : List Output :=
  let userlist := st.users.map
    (fun p => (p.1, if p.1 ∈ st.clients then "online" else "offline"))
  st.clients.map (fun c => ((Dest.toUser c), ServerMsg.userList userlist))

/-- The personalized groups view of `send_groups_list` (lines 655-672). -/
def my_groups (st : ServerState) (u : String) : List (String × String) :=
  (st.groups.filter (fun r => u ∈ r.members)).map (fun r => (r.name, r.creator))

/-- `send_groups_list` (lines 655-672), sending to destination `d`. -/
def send_groups_list (st : ServerState) (d : Dest) (u : String) : List Output :=
  [(d, .allGroupsList (st.groups.map (fun r => r.name))),
   (d, .myGroupsList (my_groups st u))]

/-- `broadcast_groups_update` (lines 674-682). -/
def broadcast_groups_update (st : ServerState) : List Output :=
  st.clients.map (fun c => ((Dest.toUser c),
    ServerMsg.allGroupsList (st.groups.map (fun r => r.name))))

/-- The `MSG_LOGIN` branch of `handle_client` (lines 187-192): on success
the connection is put in the registry, then presence and group lists are
pushed. -/
def loginStep (st : ServerState) (username password : String) :
    ServerState × List Output :=
  match handle_login hashp st username password with
  | (none, out) => (st, out)
  | (some u, out) =>
      let st' := { st with
        clients := if u ∈ st.clients then st.clients else st.clients ++ [u] }
      (st', out ++ broadcast_user_list st' ++ send_groups_list st' .toConn u)

/-- The `finally` block of `handle_client` (lines 242-247), also run after
an uncaught exception: drop the registry entry, broadcast presence. -/
def disconnectStep (st : ServerState) (username : String) :
    ServerState × List Output :=
  if username ≠ "" ∧ username ∈ st.clients then
    let st' := { st with clients := st.clients.erase username }
    (st', broadcast_user_list st')
  else (st, [])

/-- `handle_private_message` (lines 294-317).  The `.error` outcome is the
uncaught `ValueError` from `bytes(...)` inside `encrypt_data` when some
character XORs with its key byte to a value `≥ 256`; it propagates before
anything is inserted, and `handle_client` then tears the session down. -/
def handle_private_message (st : ServerState) (sender receiver content : String)
    (now : Nat) : Except Unit (ServerState × List Output) :=
  if receiver = "" ∨ content = "" then .ok (st, [])
  else if ¬ encryptableB content then .error ()
  else
    let st' := { st with messages := st.messages ++
      [⟨sender, receiver, encrypt_data content, "text", now⟩] }
    .ok (st',
      if receiver ∈ st.clients then
        [((Dest.toUser receiver), ServerMsg.privateMsg sender content)]
      else [])

/-- `handle_file_transfer` (lines 319-344): the metadata `FILE:<name>` is
persisted encrypted, raw content forwarded only if the receiver is online. -/
def handle_file_transfer (st : ServerState)
    (sender receiver filename content : String) (now : Nat) :
    Except Unit (ServerState × List Output) :=
  if receiver = "" ∨ filename = "" ∨ content = "" then .ok (st, [])
  else if ¬ encryptableB ("FILE:" ++ filename) then .error ()
  else
    let st' := { st with messages := st.messages ++
      [⟨sender, receiver, encrypt_data ("FILE:" ++ filename), "file", now⟩] }
    .ok (st',
      if receiver ∈ st.clients then
        [((Dest.toUser receiver), ServerMsg.fileMsg sender filename content)]
      else [])

/-- Ascending-timestamp comparison used by `ORDER BY timestamp ASC`. -/
def tsLe (a b : MsgRec) : Prop := a.timestamp ≤ b.timestamp

instance : DecidableRel tsLe := fun a b => Nat.decLe a.timestamp b.timestamp

instance : IsTotal MsgRec tsLe := ⟨fun a b => Nat.le_total a.timestamp b.timestamp⟩

instance : IsTrans MsgRec tsLe := ⟨fun _ _ _ => Nat.le_trans⟩

/-- The `WHERE (sender=? AND receiver=?) OR (sender=? AND receiver=?)`
filter of the history query. -/
def pairMatch (u p : String) (r : MsgRec) : Bool :=
  (r.sender == u && r.receiver == p) || (r.sender == p && r.receiver == u)

/-- The rows produced by the history query (lines 352-358):
`ORDER BY timestamp ASC LIMIT 50` sorts the matching rows ascending and
keeps the first—i.e. oldest—50. -/
def history_rows (st : ServerState) (u p : String) : List MsgRec :=
  (List.insertionSort tsLe (st.messages.filter (pairMatch u p))).take 50

/-- `send_message_history` (lines 346-373). -/
def send_message_history (st : ServerState) (username partner : String) :
    List Output :=
  if partner = "" then []
  else
    [(.toConn, .historyMsg partner ((history_rows st username partner).map
      (fun r => ⟨r.sender, decrypt_data r.content, r.msg_type⟩)))]

/-- `relay_call_signal` (lines 375-380): forward the tagged signal to the
target's session if connected, silently drop otherwise. -/
def relay_call_signal (st : ServerState) (sender ty target mode : String) :
    List Output :=
  if target ≠ "" ∧ target ∈ st.clients then
    [((Dest.toUser target), ServerMsg.callSignal ty sender target mode)]
  else []

/-- `handle_group_create` (lines 382-408); the duplicate-name
`sqlite3.IntegrityError` is the first-match lookup test. -/
def handle_group_create (st : ServerState) (creator group_name pin : String)
    (now : Nat) : ServerState × List Output :=
  if group_name = "" ∨ pin = "" then
    (st, [(.toConn, .text "SYSTEM" "Invalid group data")])
  else
    match lookupGroup st.groups group_name with
    | some _ => (st, [(.toConn, .text "SYSTEM" "Group already exists")])
    | none =>
        let st' := { st with groups := st.groups ++
          [⟨group_name, hashp pin, creator, [creator], now⟩] }
        (st', [(.toConn, .text "SYSTEM"
                 ("Group \x27" ++ group_name ++ "\x27 created"))]
          ++ broadcast_groups_update st'
          ++ send_groups_list st' .toConn creator)

/-- `is_group_member` (lines 617-626). -/
def is_group_member (st : ServerState) (username group_name : String) : Bool :=
  match lookupGroup st.groups group_name with
  | some g => username ∈ g.members
  | none => false

/-- `broadcast_to_group` (lines 628-640): send to every stored member that
is not the excluded identity and has an active session. -/
def broadcast_to_group (st : ServerState) (group_name : String) (m : ServerMsg)
    (exclude : Option String) : List Output :=
  match lookupGroup st.groups group_name with
  | none => []
  | some g =>
      (g.members.filter
        (fun mem => (some mem ≠ exclude) ∧ mem ∈ st.clients)).map
        (fun mem => ((Dest.toUser mem), m))

/-- `handle_group_add_user` (lines 410-459). -/
def handle_group_add_user (st : ServerState) (sender group_name target_user : String) :
    ServerState × List Output :=
  if group_name = "" ∨ target_user = "" then (st, [])
  else
    match lookupGroup st.groups group_name with
    | none => (st, [(.toConn, .text "SYSTEM" "Group not found")])
    | some g =>
        if g.creator ≠ sender then
          (st, [(.toConn, .text "SYSTEM" "Only creator can add users")])
        else if (st.users.lookup target_user).isNone then
          (st, [(.toConn, .text "SYSTEM" "User not found")])
        else if target_user ∈ g.members then
          (st, [(.toConn, .text "SYSTEM" "User already in group")])
        else
          let gs' := updateGroupMembers st.groups group_name (g.members ++ [target_user])
          let st' := { st with groups := gs' }
          (st',
            [(.toConn, .text "SYSTEM"
              ("Added " ++ target_user ++ " to " ++ group_name))]
            ++ (if target_user ∈ st.clients then
                  send_groups_list st' (.toUser target_user) target_user
                  ++ [((Dest.toUser target_user), ServerMsg.text "SYSTEM"
                        ("You were added to \x27" ++ group_name ++ "\x27"))]
                else [])
            ++ broadcast_to_group st' group_name
                (.groupMsg group_name "SYSTEM" (target_user ++ " added by creator"))
                none)

/-- `handle_group_join` (lines 461-499). -/
def handle_group_join (st : ServerState) (username group_name pin : String) :
    ServerState × List Output :=
  if group_name = "" ∨ pin = "" then (st, [])
  else
    match lookupGroup st.groups group_name with
    | none => (st, [(.toConn, .text "SYSTEM" "Group not found")])
    | some g =>
        if hashp pin ≠ g.pin_hash then
          (st, [(.toConn, .text "SYSTEM" "Incorrect PIN")])
        else if username ∈ g.members then
          (st, [(.toConn, .text "SYSTEM" "Already in group")])
        else
          let gs' := updateGroupMembers st.groups group_name (g.members ++ [username])
          let st' := { st with groups := gs' }
          (st',
            [(.toConn, .text "SYSTEM" ("Joined \x27" ++ group_name ++ "\x27"))]
            ++ send_groups_list st' .toConn username
            ++ broadcast_to_group st' group_name
                (.groupMsg group_name "SYSTEM" (username ++ " joined")) none)

/-- `handle_group_leave` (lines 501-527); `members.remove` drops the first
occurrence. -/
def handle_group_leave (st : ServerState) (username group_name : String) :
    ServerState × List Output :=
  if group_name = "" then (st, [])
  else
    match lookupGroup st.groups group_name with
    | none => (st, [])
    | some g =>
        if username ∈ g.members then
          let gs' := updateGroupMembers st.groups group_name (g.members.erase username)
          let st' := { st with groups := gs' }
          (st',
            [(.toConn, .text "SYSTEM" ("Left \x27" ++ group_name ++ "\x27"))]
            ++ send_groups_list st' .toConn username
            ++ broadcast_to_group st' group_name
                (.groupMsg group_name "SYSTEM" (username ++ " left")) none)
        else (st, [])

/-- `handle_group_message` (lines 529-543): broadcast, sender excluded,
nothing persisted. -/
def handle_group_message (st : ServerState) (sender group_name content : String) :
    List Output :=
  if group_name = "" ∨ content = "" then []
  else if is_group_member st sender group_name then
    broadcast_to_group st group_name
      (.groupMsg group_name sender content) (some sender)
  else []

/-- `handle_group_file` (lines 545-561). -/
def handle_group_file (st : ServerState)
    (sender group_name filename content : String) : List Output :=
  if group_name = "" ∨ filename = "" ∨ content = "" then []
  else if is_group_member st sender group_name then
    broadcast_to_group st group_name
      (.groupFile group_name sender filename content) (some sender)
  else []

/-- `handle_group_call` (lines 563-577). -/
def handle_group_call (st : ServerState) (sender group_name mode : String) :
    List Output :=
  if group_name = "" then []
  else if is_group_member st sender group_name then
    broadcast_to_group st group_name
      (.groupCall group_name sender mode) (some sender)
  else []

/-- `handle_group_call_accept` (lines 579-597): create the roster on first
use, insert the accepter only if absent, then broadcast the acceptance to
the whole group with no exclusion. -/
def handle_group_call_accept (st : ServerState) (username group_name : String) :
    ServerState × List Output :=
  if group_name = "" then (st, [])
  else
    let roster := (st.group_calls.lookup group_name).getD []
    let roster' := if username ∈ roster then roster else roster ++ [username]
    let st' := { st with group_calls := dictInsert group_name roster' st.group_calls }
    (st', broadcast_to_group st' group_name
      (.groupCallAccept group_name username) none)

/-- `handle_group_voice` (lines 599-615). -/
def handle_group_voice (st : ServerState) (sender group_name content : String)
    (duration : Nat) : List Output :=
  if group_name = "" ∨ content = "" then []
  else if is_group_member st sender group_name then
    broadcast_to_group st group_name
      (.groupVoice group_name sender content duration) (some sender)
  else []

/-- One inbound framed request (or a transport-level disconnect), carrying
the session identity `handle_client` tracks for the connection. -/
inductive Event where
  | signup (username password : String) : Event
  | login (username password : String) : Event
  | privateMsg (user target content : String) (now : Nat) : Event
  | fileTransfer (user target filename content : String) (now : Nat) : Event
  | voiceMsg (user : String) : Event
  | history (user withUser : String) : Event
  | callSignal (user ty target mode : String) : Event
  | groupCreate (user room pin : String) (now : Nat) : Event
  | groupJoin (user room pin : String) : Event
  | groupLeave (user room : String) : Event
  | groupMsg (user room content : String) : Event
  | groupFile (user room filename content : String) : Event
  | groupCall (user room mode : String) : Event
  | groupCallAccept (user room : String) : Event
  | groupVoice (user room content : String) (duration : Nat) : Event
  | groupAddUser (user room target : String) : Event
  | disconnect (user : String) : Event

/-- The dispatch loop of `handle_client` (lines 172-247): one request in,
new state plus sends out.  A handler raising (`.error`) or the missing
`handle_voice_message` method (an `AttributeError` on every `voice_msg`
request) falls through to the `finally` teardown, `disconnectStep`. -/
def serverStep (st : ServerState) (ev : Event) : ServerState × List Output :=
  match ev with
  | .signup u p => handle_signup hashp st u p
  | .login u p => loginStep hashp st u p
  | .privateMsg u t c now =>
      match handle_private_message st u t c now with
      | .ok r => r
      | .error _ => disconnectStep st u
  | .fileTransfer u t f c now =>
      match handle_file_transfer st u t f c now with
      | .ok r => r
      | .error _ => disconnectStep st u
  | .voiceMsg u => disconnectStep st u
  | .history u w => (st, send_message_history st u w)
  | .callSignal u ty t mode => (st, relay_call_signal st u ty t mode)
  | .groupCreate u room pin now => handle_group_create hashp st u room pin now
  | .groupJoin u room pin => handle_group_join hashp st u room pin
  | .groupLeave u room => handle_group_leave st u room
  | .groupMsg u room c => (st, handle_group_message st u room c)
  | .groupFile u room f c => (st, handle_group_file st u room f c)
  | .groupCall u room mode => (st, handle_group_call st u room mode)
  | .groupCallAccept u room => handle_group_call_accept st u room
  | .groupVoice u room c d => (st, handle_group_voice st u room c d)
  | .groupAddUser u room t => handle_group_add_user st u room t
  | .disconnect u => disconnectStep st u

/-- The state of a fresh `ChatServer`: durable tables read from `chat.db`,
empty registry, empty rosters. -/
def initState (users : List (String × String)) (messages : List MsgRec)
    (groups : List GroupRec) : ServerState :=
  ⟨users, messages, groups, [], []⟩

/-- States reachable from a start state by any sequence of requests. -/
inductive Reachable : ServerState → ServerState → Prop where
  | refl (st : ServerState) : Reachable st st
  | tail {st st' : ServerState} (ev : Event) :
      Reachable st st' → Reachable st (serverStep hashp st' ev).1

end LinkAPP

namespace LinkAPP

/-! ## UDP relays (`udp_audio_relay` lines 684-720, `udp_video_relay`
lines 722-758)

Datagrams are byte lists (`Nat` values below 256 in practice).  Identities
appear on the wire as their UTF-8 bytes; the endpoint tables are keyed by
those byte strings, and the call-roster table is passed in the same
encoding (its keys are the UTF-8 bytes of the room names in
`self.group_calls`).  Endpoint addresses are opaque `Nat`s.  The two relay
loops are textually identical up to the tag bytes (`G`/`A` on the audio
socket, `H`/`V` on the video socket) and the table they own, so one step
function is parameterized by the two tags. -/

/-- `b'REG:'`. -/
def REGbytes : List Nat := [82, 69, 71, 58]

/-- `data.startswith(prefix_bytes)`. -/
def startsWithB : List Nat → List Nat → Bool
  | [], _ => true
  | _ :: _, [] => false
  | a :: as, b :: bs => a == b && startsWithB as bs

/-- `data.find(b'\0')` based split: the part before the first NUL and the
part after it, `none` when there is no NUL (`find` returns `-1`). -/
def splitNul (l : List Nat) : Option (List Nat × List Nat) :=
  if 0 ∈ l then some (l.takeWhile (fun b => b ≠ 0), (l.dropWhile (fun b => b ≠ 0)).drop 1)
  else none

/-- One iteration of a relay receive loop.  Inputs: the relay's endpoint
table, the shared call rosters, the datagram and its source address.
Outputs: the updated endpoint table and the `sendto` calls as
(destination address, payload) pairs. -/
def relayStep (groupTag privTag : Nat)
    (endpoints : List (List Nat × Nat))
    (group_calls : List (List Nat × List (List Nat)))
    (data : List Nat) (addr : Nat) :
    (List (List Nat × Nat)) × List (Nat × List Nat) :=
  if startsWithB REGbytes data then
    -- username = data.decode().split(':')[1]: the run after the first ':'
    -- up to the next ':' (or the end)
    let username := (data.drop 4).takeWhile (fun b => b ≠ 58)
    (dictInsert username addr endpoints, [])
  else if data.head? = some groupTag then
    match splitNul (data.drop 1) with
    | none => (endpoints, [])
    | some (room, payload) =>
        match group_calls.lookup room with
        | none => (endpoints, [])
        | some roster =>
            match endpoints.find? (fun p => p.2 == addr) with
            | none => (endpoints, [])
            | some sender =>
                (endpoints,
                  (roster.filter (fun part => part ≠ sender.1 ∧
                      (endpoints.lookup part).isSome)).filterMap
                    (fun part => (endpoints.lookup part).map
                      (fun a => (a, payload))))
  else if data.head? = some privTag then
    match splitNul (data.drop 1) with
    | none => (endpoints, [])
    | some (target, payload) =>
        match endpoints.lookup target with
        | some a => (endpoints, [(a, payload)])
        | none => (endpoints, [])
  else (endpoints, [])

/-- The audio relay: group tag `G` (71), private tag `A` (65). -/
def udp_audio_step := relayStep 71 65

/-- The video relay: group tag `H` (72), private tag `V` (86). -/
def udp_video_step := relayStep 72 86

/-- A concrete store with 51 private records between `"a"` and `"b"`:
timestamps 0–49 carry plaintext `"old"`, the most recent record
(timestamp 50) carries plaintext `"new"`. -/
def stHist51 : ServerState :=
  ⟨[], ((List.range 50).map
      (fun i => ⟨"a", "b", encrypt_data "old", "text", i⟩))
    ++ [⟨"a", "b", encrypt_data "new", "text", 50⟩], [], [], []⟩

end LinkAPP

namespace LinkAPP

/-! ## Lemmas about the encryption layer -/

theorem charSextet_sextetChar : ∀ n : Nat, n < 64 → charSextet (sextetChar n) = n := by
  decide

theorem sextetChar_ne_pad : ∀ n : Nat, n < 64 → sextetChar n ≠ '=' := by
  decide

/-- Decoding a full (unpadded) 4-character block. -/
theorem b64decode_block (s1 s2 s3 s4 : Nat) (h1 : s1 < 64) (h2 : s2 < 64)
    (h3 : s3 < 64) (h4 : s4 < 64) (rest : List Char) :
    b64decode (sextetChar s1 :: sextetChar s2 :: sextetChar s3 :: sextetChar s4 :: rest)
      = (s1 * 4 + s2 / 16) :: (s2 % 16 * 16 + s3 / 4) ::
        (s3 % 4 * 64 + s4) :: b64decode rest := by
  simp only [b64decode, charSextet_sextetChar _ h1, charSextet_sextetChar _ h2,
    charSextet_sextetChar _ h3, charSextet_sextetChar _ h4,
    sextetChar_ne_pad _ h3, sextetChar_ne_pad _ h4, if_false, List.cons_append,
    List.nil_append]

theorem b64_roundtrip (l : List Nat) (h : ∀ b ∈ l, b < 256) :
    b64decode (b64encode l) = l := by
  induction l using b64encode.induct with
  | case1 => rfl
  | case2 a =>
      have ha : a < 256 := h a (by simp)
      simp only [b64encode, b64decode,
        charSextet_sextetChar (a / 4) (by omega),
        charSextet_sextetChar (a % 4 * 16) (by omega), eq_self_iff_true, if_true]
      congr 1
      omega
  | case3 a b =>
      have ha : a < 256 := h a (by simp)
      have hb : b < 256 := h b (by simp)
      simp only [b64encode, b64decode,
        charSextet_sextetChar (a / 4) (by omega),
        charSextet_sextetChar (a % 4 * 16 + b / 16) (by omega),
        charSextet_sextetChar (b % 16 * 4) (by omega),
        sextetChar_ne_pad (b % 16 * 4) (by omega), if_false,
        eq_self_iff_true, if_true]
      congr 2 <;> omega
  | case4 a b c rest ih =>
      have ha : a < 256 := h a (by simp)
      have hb : b < 256 := h b (by simp)
      have hc : c < 256 := h c (by simp)
      have hrest : ∀ x ∈ rest, x < 256 := fun x hx => h x (by simp [hx])
      simp only [b64encode]
      rw [b64decode_block (a / 4) (a % 4 * 16 + b / 16) (b % 16 * 4 + c / 64) (c % 64)
        (by omega) (by omega) (by omega) (by omega)]
      rw [ih hrest]
      congr 3 <;> omega

theorem xorFrom_involutive (l : List Nat) : ∀ i, xorFrom i (xorFrom i l) = l := by
  induction l with
  | nil => intro i; rfl
  | cons b rest ih =>
      intro i
      simp [xorFrom, Nat.xor_assoc, ih]

theorem xorFrom_length (l : List Nat) : ∀ i, (xorFrom i l).length = l.length := by
  induction l with
  | nil => intro i; rfl
  | cons b rest ih => intro i; simp [xorFrom, ih]

theorem b64encode_ne_nil (l : List Nat) (h : l ≠ []) : b64encode l ≠ [] := by
  match l with
  | [a] => simp [b64encode]
  | [a, b] => simp [b64encode]
  | a :: b :: c :: rest => simp [b64encode]

/-- Round trip of the storage encryption: decrypting an encrypted non-empty
string whose per-position XORs all fit in a byte recovers the string. -/
theorem encrypt_decrypt_roundtrip (s : String) (hs : s ≠ "")
    (h : ∀ b ∈ xorFrom 0 (s.toList.map Char.toNat), b < 256) :
    decrypt_data (encrypt_data s) = some s := by
  have hdata : s.toList ≠ [] := by
    intro hnil
    apply hs
    cases s with
    | mk l =>
        have hl : l = [] := hnil
        subst hl
        rfl
  have hx : xorFrom 0 (s.toList.map Char.toNat) ≠ [] := by
    intro hnil
    apply hdata
    have hlen := congrArg List.length hnil
    rw [xorFrom_length] at hlen
    simp only [List.length_map, List.length_nil] at hlen
    exact List.length_eq_zero.mp hlen
  have henc : b64encode (xorFrom 0 (s.toList.map Char.toNat)) ≠ [] :=
    b64encode_ne_nil _ hx
  have hmk : String.mk (b64encode (xorFrom 0 (s.toList.map Char.toNat))) ≠ "" := by
    intro hempty
    exact henc (by simpa [String.ext_iff] using hempty)
  simp only [encrypt_data, if_neg hs, decrypt_data, if_neg hmk]
  have htl : (String.mk (b64encode (xorFrom 0 (s.toList.map Char.toNat)))).toList
      = b64encode (xorFrom 0 (s.toList.map Char.toNat)) := rfl
  rw [htl, b64_roundtrip _ h, xorFrom_involutive, List.map_map]
  have : (Char.ofNat ∘ Char.toNat) = id := by
    funext c
    exact Char.ofNat_toNat c
  rw [this, List.map_id]
  cases s
  rfl

end LinkAPP

namespace LinkAPP

/-- C10: for every non-empty string whose characters XOR with the repeating
key into single bytes (in particular every non-empty ASCII string),
`decrypt_data (encrypt_data s) = s`; for the empty string `encrypt_data`
returns `None`, so the round trip yields `None`, not the input. -/
theorem C10_encrypt_decrypt :
    (∀ s : String, s ≠ "" →
        (∀ b ∈ xorFrom 0 (s.toList.map Char.toNat), b < 256) →
        decrypt_data (encrypt_data s) = some s)
    ∧ encrypt_data "" = none ∧ decrypt_data (encrypt_data "") ≠ some "" := by
  refine ⟨fun s hs h => encrypt_decrypt_roundtrip s hs h, rfl, by simp [encrypt_data, decrypt_data]⟩

/-- Witness for C10 at the concrete string `"hi"`. -/
theorem C10_encrypt_decrypt_witness :
    decrypt_data (encrypt_data "hi") = some "hi" ∧ encrypt_data "" = none :=
  ⟨C10_encrypt_decrypt.1 "hi" (by decide) (by decide), C10_encrypt_decrypt.2.1⟩

end LinkAPP

namespace LinkAPP

/-! ## Lemmas about dictionaries and group-table access -/

theorem lookup_cons_pos {α β : Type} [BEq α] (a k : α) (b : β) (t : List (α × β))
    (h : (k == a) = true) : List.lookup k ((a, b) :: t) = some b := by
  simp [List.lookup, h]

theorem lookup_cons_neg {α β : Type} [BEq α] (a k : α) (b : β) (t : List (α × β))
    (h : (k == a) = false) : List.lookup k ((a, b) :: t) = List.lookup k t := by
  simp [List.lookup, h]

theorem lookup_dictInsert_self {α β : Type} [BEq α] [LawfulBEq α]
    (k : α) (v : β) (l : List (α × β)) :
    (dictInsert k v l).lookup k = some v := by
  induction l with
  | nil =>
      show List.lookup k [(k, v)] = some v
      exact lookup_cons_pos k k v [] (by simp)
  | cons p t ih =>
      obtain ⟨a, b⟩ := p
      by_cases h : a = k
      · subst h
        rw [show dictInsert a v ((a, b) :: t) = (a, v) :: t from by simp [dictInsert]]
        exact lookup_cons_pos a a v t (by simp)
      · rw [show dictInsert k v ((a, b) :: t) = (a, b) :: dictInsert k v t from by
            simp [dictInsert, h]]
        rw [lookup_cons_neg a k b _ (beq_eq_false_iff_ne.mpr (fun he => h he.symm))]
        exact ih

theorem lookup_dictInsert_ne {α β : Type} [BEq α] [LawfulBEq α]
    (k k' : α) (v : β) (l : List (α × β)) (h : k' ≠ k) :
    (dictInsert k v l).lookup k' = l.lookup k' := by
  induction l with
  | nil =>
      show List.lookup k' [(k, v)] = List.lookup k' []
      rw [lookup_cons_neg k k' v [] (beq_eq_false_iff_ne.mpr h)]
  | cons p t ih =>
      obtain ⟨a, b⟩ := p
      by_cases ha : a = k
      · subst ha
        rw [show dictInsert a v ((a, b) :: t) = (a, v) :: t from by simp [dictInsert]]
        rw [lookup_cons_neg a k' v t (beq_eq_false_iff_ne.mpr h),
          lookup_cons_neg a k' b t (beq_eq_false_iff_ne.mpr h)]
      · rw [show dictInsert k v ((a, b) :: t) = (a, b) :: dictInsert k v t from by
            simp [dictInsert, ha]]
        by_cases hak : k' = a
        · rw [lookup_cons_pos a k' b _ (by simpa using hak),
            lookup_cons_pos a k' b _ (by simpa using hak)]
        · rw [lookup_cons_neg a k' b _ (beq_eq_false_iff_ne.mpr hak),
            lookup_cons_neg a k' b _ (beq_eq_false_iff_ne.mpr hak)]
          exact ih

theorem lookupGroup_update_self (gs : List GroupRec) (g : String)
    (ms : List String) (grp : GroupRec) (h : lookupGroup gs g = some grp) :
    lookupGroup (updateGroupMembers gs g ms) g = some { grp with members := ms } := by
  induction gs with
  | nil => simp [lookupGroup] at h
  | cons r t ih =>
      by_cases hr : r.name = g
      · have hb : (r.name == g) = true := by simpa using hr
        have hgrp : r = grp := by
          rw [lookupGroup, List.find?_cons_of_pos (p := fun (x : GroupRec) => x.name == g) t hb] at h
          exact Option.some.inj h
        rw [lookupGroup, updateGroupMembers, List.map_cons, if_pos hb,
          List.find?_cons_of_pos (p := fun (x : GroupRec) => x.name == g)
            (a := { r with members := ms }) _ (by exact hb)]
        rw [hgrp]
      · have hb : (r.name == g) = false := beq_eq_false_iff_ne.mpr hr
        rw [lookupGroup,
          List.find?_cons_of_neg (p := fun (x : GroupRec) => x.name == g) t (by simp [hb])] at h
        rw [lookupGroup, updateGroupMembers, List.map_cons, if_neg (by simp [hb]),
          List.find?_cons_of_neg (p := fun (x : GroupRec) => x.name == g) _ (by simp [hb])]
        exact ih h

theorem lookupGroup_update_ne (gs : List GroupRec) (g g' : String)
    (ms : List String) (h : g' ≠ g) :
    lookupGroup (updateGroupMembers gs g ms) g' = lookupGroup gs g' := by
  induction gs with
  | nil => rfl
  | cons r t ih =>
      by_cases hr : r.name = g
      · have hb : (r.name == g) = true := by simpa using hr
        have hrg' : r.name ≠ g' := fun he => h (by rw [← he, hr])
        have hb' : (r.name == g') = false := beq_eq_false_iff_ne.mpr hrg'
        rw [lookupGroup, updateGroupMembers, List.map_cons, if_pos hb,
          List.find?_cons_of_neg (p := fun (x : GroupRec) => x.name == g')
            (a := { r with members := ms }) _ (by simp [hb']),
          lookupGroup,
          List.find?_cons_of_neg (p := fun (x : GroupRec) => x.name == g')
            (a := r) _ (by simp [hb'])]
        exact ih
      · have hb' : (r.name == g) = false := beq_eq_false_iff_ne.mpr hr
        rw [lookupGroup, updateGroupMembers, List.map_cons, if_neg (by simp [hb'])]
        by_cases hg' : r.name = g'
        · rw [List.find?_cons_of_pos (p := fun (x : GroupRec) => x.name == g') _ (by simpa using hg'),
            lookupGroup,
            List.find?_cons_of_pos (p := fun (x : GroupRec) => x.name == g') _ (by simpa using hg')]
        · rw [List.find?_cons_of_neg (p := fun (x : GroupRec) => x.name == g') _
              (by simp [beq_eq_false_iff_ne.mpr hg']),
            lookupGroup,
            List.find?_cons_of_neg (p := fun (x : GroupRec) => x.name == g') _
              (by simp [beq_eq_false_iff_ne.mpr hg'])]
          exact ih

theorem lookupGroup_append (gs : List GroupRec) (g : String) (r : GroupRec)
    (h : lookupGroup gs g = none) (hr : (r.name == g) = true) :
    lookupGroup (gs ++ [r]) g = some r := by
  unfold lookupGroup at *
  rw [List.find?_append, h, List.find?_cons_of_pos (p := fun (x : GroupRec) => x.name == g) [] hr]
  rfl

theorem grp_mem_of_lookupGroup {gs : List GroupRec} {g : String} {grp : GroupRec}
    (h : lookupGroup gs g = some grp) : grp ∈ gs ∧ grp.name = g := by
  refine ⟨List.mem_of_find?_eq_some h, ?_⟩
  have := List.find?_some h
  simpa using this

end LinkAPP

namespace LinkAPP

/-! ## Per-handler facts used by the invariants -/

theorem handle_login_cases (hashp : String → String) (st : ServerState)
    (u p : String) :
    (∃ m, handle_login hashp st u p = (none, [(.toConn, .authResult false m)]))
    ∨ (handle_login hashp st u p
          = (some u, [(.toConn, .authResult true "Login successful")])
        ∧ u ∉ st.clients) := by
  unfold handle_login
  repeat' split
  all_goals first
    | exact Or.inl ⟨_, rfl⟩
    | exact Or.inr ⟨rfl, by assumption⟩

theorem handle_login_some (hashp : String → String) (st : ServerState)
    (u p v : String) (h : (handle_login hashp st u p).1 = some v) :
    v = u ∧ u ∉ st.clients := by
  rcases handle_login_cases hashp st u p with ⟨m, hm⟩ | ⟨hm, hnotin⟩
  · rw [hm] at h
    simp at h
  · rw [hm] at h
    simp only at h
    exact ⟨(Option.some.inj h).symm, hnotin⟩

theorem handle_login_none_out (hashp : String → String) (st : ServerState)
    (u p : String) (h : (handle_login hashp st u p).1 = none) :
    ∃ m, handle_login hashp st u p = (none, [(.toConn, .authResult false m)]) := by
  rcases handle_login_cases hashp st u p with ⟨m, hm⟩ | ⟨hm, _⟩
  · exact ⟨m, hm⟩
  · rw [hm] at h
    simp at h

theorem handle_signup_frame (hashp : String → String) (st : ServerState)
    (u p : String) :
    (handle_signup hashp st u p).1.clients = st.clients
    ∧ (handle_signup hashp st u p).1.group_calls = st.group_calls := by
  unfold handle_signup
  repeat' split
  all_goals exact ⟨rfl, rfl⟩

theorem loginStep_frame (hashp : String → String) (st : ServerState)
    (u p : String) :
    (loginStep hashp st u p).1.group_calls = st.group_calls := by
  unfold loginStep
  repeat' split
  all_goals rfl

theorem disconnectStep_frame (st : ServerState) (u : String) :
    (disconnectStep st u).1.group_calls = st.group_calls := by
  unfold disconnectStep
  repeat' split
  all_goals rfl

theorem handle_private_message_ok {st : ServerState} {s r c : String} {n : Nat}
    {st' : ServerState} {out : List Output}
    (h : handle_private_message st s r c n = .ok (st', out)) :
    st'.users = st.users ∧ st'.groups = st.groups ∧ st'.clients = st.clients
    ∧ st'.group_calls = st.group_calls := by
  unfold handle_private_message at h
  repeat' split at h
  all_goals first
    | exact Except.noConfusion h
    | (simp only [Except.ok.injEq, Prod.mk.injEq] at h
       obtain ⟨h1, h2⟩ := h
       subst h1
       exact ⟨rfl, rfl, rfl, rfl⟩)

theorem handle_file_transfer_ok {st : ServerState} {s r f c : String} {n : Nat}
    {st' : ServerState} {out : List Output}
    (h : handle_file_transfer st s r f c n = .ok (st', out)) :
    st'.users = st.users ∧ st'.groups = st.groups ∧ st'.clients = st.clients
    ∧ st'.group_calls = st.group_calls := by
  unfold handle_file_transfer at h
  repeat' split at h
  all_goals first
    | exact Except.noConfusion h
    | (simp only [Except.ok.injEq, Prod.mk.injEq] at h
       obtain ⟨h1, h2⟩ := h
       subst h1
       exact ⟨rfl, rfl, rfl, rfl⟩)

theorem handle_group_create_frame (hashp : String → String) (st : ServerState)
    (c g pin : String) (now : Nat) :
    (handle_group_create hashp st c g pin now).1.clients = st.clients
    ∧ (handle_group_create hashp st c g pin now).1.group_calls = st.group_calls := by
  unfold handle_group_create
  repeat' split
  all_goals exact ⟨rfl, rfl⟩

theorem handle_group_add_user_frame (st : ServerState) (s g t : String) :
    (handle_group_add_user st s g t).1.clients = st.clients
    ∧ (handle_group_add_user st s g t).1.group_calls = st.group_calls := by
  unfold handle_group_add_user
  repeat' split
  all_goals exact ⟨rfl, rfl⟩

theorem handle_group_join_frame (hashp : String → String) (st : ServerState)
    (u g pin : String) :
    (handle_group_join hashp st u g pin).1.clients = st.clients
    ∧ (handle_group_join hashp st u g pin).1.group_calls = st.group_calls := by
  unfold handle_group_join
  repeat' split
  all_goals exact ⟨rfl, rfl⟩

theorem handle_group_leave_frame (st : ServerState) (u g : String) :
    (handle_group_leave st u g).1.clients = st.clients
    ∧ (handle_group_leave st u g).1.group_calls = st.group_calls := by
  unfold handle_group_leave
  repeat' split
  all_goals exact ⟨rfl, rfl⟩

theorem handle_group_call_accept_clients (st : ServerState) (u g : String) :
    (handle_group_call_accept st u g).1.clients = st.clients := by
  unfold handle_group_call_accept
  repeat' split
  all_goals rfl

end LinkAPP

namespace LinkAPP

/-! ## Global invariants of the dispatch loop -/

theorem disconnectStep_nodup (st : ServerState) (u : String)
    (h : st.clients.Nodup) : (disconnectStep st u).1.clients.Nodup := by
  unfold disconnectStep
  split
  · exact h.erase u
  · exact h

theorem loginStep_nodup (hashp : String → String) (st : ServerState)
    (u p : String) (h : st.clients.Nodup) :
    (loginStep hashp st u p).1.clients.Nodup := by
  unfold loginStep
  cases hl : handle_login hashp st u p with
  | mk o out =>
      cases o with
      | none => exact h
      | some v =>
          obtain ⟨rfl, hnotin⟩ :=
            handle_login_some hashp st u p v (by rw [hl])
          simp only [if_neg hnotin]
          refine h.append (List.nodup_singleton v) ?_
          intro x hx hx1
          rw [List.mem_singleton] at hx1
          exact hnotin (hx1 ▸ hx)

theorem serverStep_nodup (hashp : String → String) (st : ServerState)
    (ev : Event) (h : st.clients.Nodup) :
    (serverStep hashp st ev).1.clients.Nodup := by
  cases ev with
  | signup u p =>
      have := (handle_signup_frame hashp st u p).1
      simp only [serverStep]
      rw [this]
      exact h
  | login u p => exact loginStep_nodup hashp st u p h
  | privateMsg u t c now =>
      simp only [serverStep]
      cases hr : handle_private_message st u t c now with
      | ok r =>
          obtain ⟨st', out⟩ := r
          rw [(handle_private_message_ok hr).2.2.1]
          exact h
      | error e => exact disconnectStep_nodup st u h
  | fileTransfer u t f c now =>
      simp only [serverStep]
      cases hr : handle_file_transfer st u t f c now with
      | ok r =>
          obtain ⟨st', out⟩ := r
          rw [(handle_file_transfer_ok hr).2.2.1]
          exact h
      | error e => exact disconnectStep_nodup st u h
  | voiceMsg u => exact disconnectStep_nodup st u h
  | history u w => exact h
  | callSignal u ty t mode => exact h
  | groupCreate u room pin now =>
      simp only [serverStep]
      rw [(handle_group_create_frame hashp st u room pin now).1]
      exact h
  | groupJoin u room pin =>
      simp only [serverStep]
      rw [(handle_group_join_frame hashp st u room pin).1]
      exact h
  | groupLeave u room =>
      simp only [serverStep]
      rw [(handle_group_leave_frame st u room).1]
      exact h
  | groupMsg u room c => exact h
  | groupFile u room f c => exact h
  | groupCall u room mode => exact h
  | groupCallAccept u room =>
      simp only [serverStep]
      rw [handle_group_call_accept_clients st u room]
      exact h
  | groupVoice u room c d => exact h
  | groupAddUser u room t =>
      simp only [serverStep]
      rw [(handle_group_add_user_frame st u room t).1]
      exact h
  | disconnect u => exact disconnectStep_nodup st u h

theorem reachable_nodup (hashp : String → String) (st0 st : ServerState)
    (h0 : st0.clients.Nodup) (h : Reachable hashp st0 st) :
    st.clients.Nodup := by
  induction h with
  | refl => exact h0
  | tail ev _ ih => exact serverStep_nodup hashp _ ev ih

theorem serverStep_roster_mono (hashp : String → String) (st : ServerState)
    (ev : Event) (g : String) :
    rosterOf st g ⊆ rosterOf (serverStep hashp st ev).1 g := by
  cases ev with
  | signup u p =>
      simp only [serverStep]
      unfold rosterOf
      rw [(handle_signup_frame hashp st u p).2]
      exact fun x hx => hx
  | login u p =>
      simp only [serverStep]
      unfold rosterOf
      rw [loginStep_frame hashp st u p]
      exact fun x hx => hx
  | privateMsg u t c now =>
      simp only [serverStep]
      cases hr : handle_private_message st u t c now with
      | ok r =>
          obtain ⟨st', out⟩ := r
          unfold rosterOf
          rw [(handle_private_message_ok hr).2.2.2]
          exact fun x hx => hx
      | error e =>
          unfold rosterOf
          rw [disconnectStep_frame st u]
          exact fun x hx => hx
  | fileTransfer u t f c now =>
      simp only [serverStep]
      cases hr : handle_file_transfer st u t f c now with
      | ok r =>
          obtain ⟨st', out⟩ := r
          unfold rosterOf
          rw [(handle_file_transfer_ok hr).2.2.2]
          exact fun x hx => hx
      | error e =>
          unfold rosterOf
          rw [disconnectStep_frame st u]
          exact fun x hx => hx
  | voiceMsg u =>
      unfold rosterOf
      rw [show (serverStep hashp st (.voiceMsg u)).1.group_calls = st.group_calls
        from disconnectStep_frame st u]
      exact fun x hx => hx
  | history u w => exact fun x hx => hx
  | callSignal u ty t mode => exact fun x hx => hx
  | groupCreate u room pin now =>
      simp only [serverStep]
      unfold rosterOf
      rw [(handle_group_create_frame hashp st u room pin now).2]
      exact fun x hx => hx
  | groupJoin u room pin =>
      simp only [serverStep]
      unfold rosterOf
      rw [(handle_group_join_frame hashp st u room pin).2]
      exact fun x hx => hx
  | groupLeave u room =>
      simp only [serverStep]
      unfold rosterOf
      rw [(handle_group_leave_frame st u room).2]
      exact fun x hx => hx
  | groupMsg u room c => exact fun x hx => hx
  | groupFile u room f c => exact fun x hx => hx
  | groupCall u room mode => exact fun x hx => hx
  | groupCallAccept u room =>
      simp only [serverStep]
      unfold handle_group_call_accept
      split
      · exact fun x hx => hx
      · unfold rosterOf
        simp only
        by_cases hg : g = room
        · subst hg
          rw [lookup_dictInsert_self]
          simp only [Option.getD_some]
          split
          · exact fun x hx => hx
          · exact fun x hx => List.mem_append_left _ hx
        · rw [lookup_dictInsert_ne room g _ _ hg]
          exact fun x hx => hx
  | groupVoice u room c d => exact fun x hx => hx
  | groupAddUser u room t =>
      simp only [serverStep]
      unfold rosterOf
      rw [(handle_group_add_user_frame st u room t).2]
      exact fun x hx => hx
  | disconnect u =>
      unfold rosterOf
      rw [show (serverStep hashp st (.disconnect u)).1.group_calls = st.group_calls
        from disconnectStep_frame st u]
      exact fun x hx => hx

end LinkAPP

namespace LinkAPP

/-- C2: at every server state reachable from a fresh start the Connection
Registry holds at most one active session per identity (the registry list
has no duplicates), and a login attempt for an identity that already has a
registry entry leaves the state — in particular the existing entry —
unchanged and produces exactly one failing `auth_result`. -/
theorem C2_single_session (hashp : String → String) :
    (∀ us ms gs st, Reachable hashp (initState us ms gs) st → st.clients.Nodup)
    ∧ (∀ (st : ServerState) (u p : String), u ∈ st.clients →
        (loginStep hashp st u p).1 = st
        ∧ ∃ m, (loginStep hashp st u p).2 = [(.toConn, .authResult false m)]) := by
  constructor
  · intro us ms gs st h
    exact reachable_nodup hashp _ st List.nodup_nil h
  · intro st u p hu
    have h1 : (handle_login hashp st u p).1 = none := by
      cases ho : (handle_login hashp st u p).1 with
      | none => rfl
      | some v => exact absurd hu (handle_login_some hashp st u p v ho).2
    obtain ⟨m, hm⟩ := handle_login_none_out hashp st u p h1
    unfold loginStep
    rw [hm]
    exact ⟨rfl, m, rfl⟩

/-- Witness for C2 at a concrete state where `"alice"` is logged in. -/
theorem C2_single_session_witness :
    (initState [("alice", "pw")] [] []).clients.Nodup
    ∧ ((loginStep (fun s => s)
          ⟨[("alice", "pw")], [], [], ["alice"], []⟩ "alice" "pw").1
        = ⟨[("alice", "pw")], [], [], ["alice"], []⟩
      ∧ ∃ m, (loginStep (fun s => s)
          ⟨[("alice", "pw")], [], [], ["alice"], []⟩ "alice" "pw").2
        = [(.toConn, .authResult false m)]) :=
  ⟨(C2_single_session (fun s => s)).1 [("alice", "pw")] [] [] _ (Reachable.refl _),
   (C2_single_session (fun s => s)).2
     ⟨[("alice", "pw")], [], [], ["alice"], []⟩ "alice" "pw" (by decide)⟩

end LinkAPP

namespace LinkAPP

theorem handle_private_message_eq (st : ServerState) (A B content : String)
    (now : Nat) (hB : B ≠ "") (hc : content ≠ "")
    (henc : encryptableB content = true) :
    handle_private_message st A B content now
      = .ok ({ st with messages := st.messages
                ++ [⟨A, B, encrypt_data content, "text", now⟩] },
             if B ∈ st.clients
             then [((Dest.toUser B), ServerMsg.privateMsg A content)] else []) := by
  unfold handle_private_message
  rw [if_neg (by simp [hB, hc]), if_neg (by simp [henc])]

theorem loginStep_no_private (hashp : String → String) (st : ServerState)
    (u p : String) :
    ∀ o ∈ (loginStep hashp st u p).2, ∀ s c, o.2 ≠ ServerMsg.privateMsg s c := by
  intro o ho s c
  unfold loginStep at ho
  rcases handle_login_cases hashp st u p with ⟨m, hm⟩ | ⟨hm, hnotin⟩ <;>
    rw [hm] at ho
  · simp only [List.mem_singleton] at ho
    subst ho
    simp
  · simp only [List.mem_append] at ho
    rcases ho with (ho | ho) | ho
    · simp only [List.mem_singleton] at ho
      subst ho
      simp
    · unfold broadcast_user_list at ho
      simp only [List.mem_map] at ho
      obtain ⟨x, _, hx⟩ := ho
      rw [← hx]
      simp
    · unfold send_groups_list at ho
      simp only [List.mem_cons, List.mem_singleton] at ho
      rcases ho with ho | ho | ho
      · subst ho
        simp
      · subst ho
        simp
      · exact absurd ho (by simp)

/-- C3 (amended): a private message from `A` to `B` with non-empty content
whose characters all XOR with the key into single bytes appends exactly one
encrypted `text` record to the durable log whatever `B`'s connectivity, and
the plaintext is forwarded live to `B`'s session if and only if `B` is in
the Connection Registry; no login ever pushes a queued private message.
(Without the encryptability condition the `bytes(...)` call inside
`encrypt_data` raises and nothing is stored — see the counterexample.) -/
theorem C3_private_message (hashp : String → String) (st : ServerState)
    (A B content : String) (now : Nat) (hB : B ≠ "") (hc : content ≠ "")
    (henc : encryptableB content = true) :
    (serverStep hashp st (.privateMsg A B content now)).1
        = { st with messages := st.messages
            ++ [⟨A, B, encrypt_data content, "text", now⟩] }
    ∧ (serverStep hashp st (.privateMsg A B content now)).2
        = (if B ∈ st.clients
           then [((Dest.toUser B), ServerMsg.privateMsg A content)] else [])
    ∧ (∀ (st₂ : ServerState) (u p : String),
        ∀ o ∈ (serverStep hashp st₂ (.login u p)).2,
          ∀ s c, o.2 ≠ ServerMsg.privateMsg s c) := by
  refine ⟨?_, ?_, ?_⟩
  · simp only [serverStep, handle_private_message_eq st A B content now hB hc henc]
  · simp only [serverStep, handle_private_message_eq st A B content now hB hc henc]
  · intro st₂ u p o ho s c
    exact loginStep_no_private hashp st₂ u p o ho s c

/-- Witness for C3 at concrete inputs: `"alice"` sends `"hi"` to the
offline `"bob"`, and once to an online `"bob"`. -/
theorem C3_private_message_witness :
    (serverStep (fun s => s) ⟨[], [], [], [], []⟩
        (.privateMsg "alice" "bob" "hi" 7)).1
      = { users := [], messages := [⟨"alice", "bob", encrypt_data "hi", "text", 7⟩],
          groups := [], clients := [], group_calls := [] }
    ∧ (serverStep (fun s => s) ⟨[], [], [], ["bob"], []⟩
        (.privateMsg "alice" "bob" "hi" 7)).2
      = [((Dest.toUser "bob"), ServerMsg.privateMsg "alice" "hi")] := by
  constructor
  · have h := (C3_private_message (fun s => s) ⟨[], [], [], [], []⟩
      "alice" "bob" "hi" 7 (by decide) (by decide) (by decide)).1
    rw [h]
    rfl
  · have h := (C3_private_message (fun s => s) ⟨[], [], [], ["bob"], []⟩
      "alice" "bob" "hi" 7 (by decide) (by decide) (by decide)).2.1
    rw [h]
    simp

/-- C3 counterexample: with the claim's hypotheses satisfied (logged-in
sender, non-empty content `"€"`, receiver online) the code appends nothing:
`encrypt_data` raises on `"€"` (its code point XORs past one byte) and the
session is torn down instead. -/
theorem C3_private_message_counterexample :
    ("€" ≠ "")
    ∧ "alice" ∈ (⟨[("alice", "x"), ("bob", "y")], [], [], ["alice", "bob"], []⟩
        : ServerState).clients
    ∧ "bob" ∈ (⟨[("alice", "x"), ("bob", "y")], [], [], ["alice", "bob"], []⟩
        : ServerState).clients
    ∧ (serverStep (fun s => s)
        ⟨[("alice", "x"), ("bob", "y")], [], [], ["alice", "bob"], []⟩
        (.privateMsg "alice" "bob" "€" 0)).1.messages = []
    ∧ ((serverStep (fun s => s)
        ⟨[("alice", "x"), ("bob", "y")], [], [], ["alice", "bob"], []⟩
        (.privateMsg "alice" "bob" "€" 0)).2.all
          (fun o => match o.2 with
            | ServerMsg.privateMsg _ _ => false
            | _ => true)) = true := by
  decide

end LinkAPP

namespace LinkAPP

/-- C5: a group message from a member `S` of room `g` is delivered exactly
to the stored members of `g` that currently have a session, excluding `S`
itself — never to `S` — and the server state (in particular the durable
message log) is left unchanged: group messages are not persisted. -/
theorem C5_group_message (hashp : String → String) (st : ServerState)
    (S g content : String) (hg : g ≠ "") (hc : content ≠ "")
    (hm : is_group_member st S g = true) :
    (serverStep hashp st (.groupMsg S g content)).1 = st
    ∧ (serverStep hashp st (.groupMsg S g content)).2
        = ((groupMembers st g).filter (fun m => m ≠ S ∧ m ∈ st.clients)).map
            (fun m => ((Dest.toUser m), ServerMsg.groupMsg g S content))
    ∧ (∀ msg, ((Dest.toUser S), msg) ∉ (serverStep hashp st (.groupMsg S g content)).2) := by
  have hout : (serverStep hashp st (.groupMsg S g content)).2
      = ((groupMembers st g).filter (fun m => m ≠ S ∧ m ∈ st.clients)).map
          (fun m => ((Dest.toUser m), ServerMsg.groupMsg g S content)) := by
    simp only [serverStep]
    unfold handle_group_message
    rw [if_neg (by simp [hg, hc]), if_pos hm]
    unfold broadcast_to_group groupMembers
    unfold is_group_member at hm
    cases hL : lookupGroup st.groups g with
    | none => rw [hL] at hm; exact absurd hm (by simp)
    | some grp =>
        simp only [hL, Option.map_some', Option.getD_some]
        congr 1
        apply List.filter_congr
        intro x _
        simp [eq_comm]
  refine ⟨rfl, hout, ?_⟩
  intro msg hmem
  rw [hout] at hmem
  simp only [List.mem_map] at hmem
  obtain ⟨x, hx, hx2⟩ := hmem
  have hxS : x ≠ S := by
    have := List.of_mem_filter hx
    simp at this
    exact this.1
  exact hxS (Dest.toUser.inj (congrArg Prod.fst hx2))

/-- Witness for C5: room `"team"` has members `"s"`, `"b"`, `"c"`; `"b"`
is online, `"c"` is not; sender `"s"` is online and receives nothing. -/
theorem C5_group_message_witness :
    (serverStep (fun s => s)
        ⟨[], [], [⟨"team", "h", "s", ["s", "b", "c"], 0⟩], ["s", "b"], []⟩
        (.groupMsg "s" "team" "hi")).1
      = ⟨[], [], [⟨"team", "h", "s", ["s", "b", "c"], 0⟩], ["s", "b"], []⟩
    ∧ (serverStep (fun s => s)
        ⟨[], [], [⟨"team", "h", "s", ["s", "b", "c"], 0⟩], ["s", "b"], []⟩
        (.groupMsg "s" "team" "hi")).2
      = [((Dest.toUser "b"), ServerMsg.groupMsg "team" "s" "hi")]
    ∧ ((Dest.toUser "s"), ServerMsg.groupMsg "team" "s" "hi")
        ∉ (serverStep (fun s => s)
            ⟨[], [], [⟨"team", "h", "s", ["s", "b", "c"], 0⟩], ["s", "b"], []⟩
            (.groupMsg "s" "team" "hi")).2 := by
  have h := C5_group_message (fun s => s)
    ⟨[], [], [⟨"team", "h", "s", ["s", "b", "c"], 0⟩], ["s", "b"], []⟩
    "s" "team" "hi" (by decide) (by decide) (by decide)
  refine ⟨h.1, ?_, h.2.2 _⟩
  rw [h.2.1]
  rfl

end LinkAPP

namespace LinkAPP

theorem handle_group_join_succ (hashp : String → String) (st : ServerState)
    (U g pin : String) (hg : g ≠ "") (hpin : pin ≠ "") (grp : GroupRec)
    (hL : lookupGroup st.groups g = some grp) (hh : hashp pin = grp.pin_hash)
    (hnm : U ∉ grp.members) :
    (handle_group_join hashp st U g pin).1
      = { st with groups := updateGroupMembers st.groups g (grp.members ++ [U]) } := by
  unfold handle_group_join
  rw [if_neg (by simp [hg, hpin]), hL]
  simp only
  rw [if_neg (by simp [hh]), if_neg hnm]

/-- C4: `group_join(g, pin, U)` appends `U` to `g`'s stored membership if
and only if `g` exists, the PIN's hash equals the stored hash and `U` is
not already a member; a wrong PIN leaves the state unchanged and sends one
error text to the requester only; a repeated join leaves the state
unchanged and answers an explicit already-a-member text. -/
theorem C4_group_join (hashp : String → String) (st : ServerState)
    (U g pin : String) (hg : g ≠ "") (hpin : pin ≠ "") :
    (∀ grp, lookupGroup st.groups g = some grp →
      (hashp pin ≠ grp.pin_hash →
        handle_group_join hashp st U g pin
          = (st, [(.toConn, .text "SYSTEM" "Incorrect PIN")]))
      ∧ (hashp pin = grp.pin_hash → U ∈ grp.members →
        handle_group_join hashp st U g pin
          = (st, [(.toConn, .text "SYSTEM" "Already in group")]))
      ∧ (hashp pin = grp.pin_hash → U ∉ grp.members →
        groupMembers (handle_group_join hashp st U g pin).1 g
          = grp.members ++ [U]))
    ∧ (groupMembers (handle_group_join hashp st U g pin).1 g
        = groupMembers st g ++ [U]
      ↔ ∃ grp, lookupGroup st.groups g = some grp
          ∧ hashp pin = grp.pin_hash ∧ U ∉ grp.members) := by
  constructor
  · intro grp hL
    refine ⟨?_, ?_, ?_⟩
    · intro hne
      unfold handle_group_join
      rw [if_neg (by simp [hg, hpin]), hL]
      simp only
      rw [if_pos hne]
    · intro hh hmem
      unfold handle_group_join
      rw [if_neg (by simp [hg, hpin]), hL]
      simp only
      rw [if_neg (by simp [hh]), if_pos hmem]
    · intro hh hnm
      rw [handle_group_join_succ hashp st U g pin hg hpin grp hL hh hnm]
      unfold groupMembers
      simp only
      rw [lookupGroup_update_self st.groups g (grp.members ++ [U]) grp hL]
      rfl
  · constructor
    · intro hmem
      cases hL : lookupGroup st.groups g with
      | none =>
          unfold handle_group_join at hmem
          rw [if_neg (by simp [hg, hpin]), hL] at hmem
          simp only at hmem
          have := congrArg List.length hmem
          simp at this
      | some grp =>
          by_cases hh : hashp pin = grp.pin_hash
          · by_cases hU : U ∈ grp.members
            · unfold handle_group_join at hmem
              rw [if_neg (by simp [hg, hpin]), hL] at hmem
              simp only at hmem
              rw [if_neg (by simp [hh]), if_pos hU] at hmem
              have := congrArg List.length hmem
              simp at this
            · exact ⟨grp, rfl, hh, hU⟩
          · unfold handle_group_join at hmem
            rw [if_neg (by simp [hg, hpin]), hL] at hmem
            simp only at hmem
            rw [if_pos hh] at hmem
            have := congrArg List.length hmem
            simp at this
    · rintro ⟨grp, hL, hh, hnm⟩
      rw [handle_group_join_succ hashp st U g pin hg hpin grp hL hh hnm]
      unfold groupMembers
      simp only
      rw [lookupGroup_update_self st.groups g (grp.members ++ [U]) grp hL, hL]
      rfl

/-- Witness for C4 on a concrete group `"team"` with PIN hash `"1234"`
(the hash is the identity function here): a fresh member joins, a wrong
PIN is rejected, a repeated join is a no-op. -/
theorem C4_group_join_witness :
    groupMembers (handle_group_join (fun s => s)
        ⟨[], [], [⟨"team", "1234", "c", ["c"], 0⟩], [], []⟩ "u" "team" "1234").1 "team"
      = ["c", "u"]
    ∧ handle_group_join (fun s => s)
        ⟨[], [], [⟨"team", "1234", "c", ["c"], 0⟩], [], []⟩ "u" "team" "9999"
      = (⟨[], [], [⟨"team", "1234", "c", ["c"], 0⟩], [], []⟩,
         [(.toConn, .text "SYSTEM" "Incorrect PIN")])
    ∧ handle_group_join (fun s => s)
        ⟨[], [], [⟨"team", "1234", "c", ["c"], 0⟩], [], []⟩ "c" "team" "1234"
      = (⟨[], [], [⟨"team", "1234", "c", ["c"], 0⟩], [], []⟩,
         [(.toConn, .text "SYSTEM" "Already in group")]) := by
  refine ⟨?_, ?_, ?_⟩
  · have h := ((C4_group_join (fun s => s)
      ⟨[], [], [⟨"team", "1234", "c", ["c"], 0⟩], [], []⟩ "u" "team" "1234"
      (by decide) (by decide)).1 ⟨"team", "1234", "c", ["c"], 0⟩ (by rfl)).2.2
      (by decide) (by decide)
    rw [h]
    rfl
  · exact ((C4_group_join (fun s => s)
      ⟨[], [], [⟨"team", "1234", "c", ["c"], 0⟩], [], []⟩ "u" "team" "9999"
      (by decide) (by decide)).1 ⟨"team", "1234", "c", ["c"], 0⟩ (by rfl)).1
      (by decide)
  · exact ((C4_group_join (fun s => s)
      ⟨[], [], [⟨"team", "1234", "c", ["c"], 0⟩], [], []⟩ "c" "team" "1234"
      (by decide) (by decide)).1 ⟨"team", "1234", "c", ["c"], 0⟩ (by rfl)).2.1
      (by rfl) (by decide)

end LinkAPP

namespace LinkAPP

/-- C9: `group_create(name, pin)` by `C` answers a user-facing failure text
and stores nothing when a group of that name already exists; otherwise it
appends a record holding the PIN's hash and the membership `[C]`, so `C`
is a member of the new group immediately after creation. -/
theorem C9_group_create (hashp : String → String) (st : ServerState)
    (C name pin : String) (now : Nat) (hname : name ≠ "") (hpin : pin ≠ "") :
    (∀ grp, lookupGroup st.groups name = some grp →
        handle_group_create hashp st C name pin now
          = (st, [(.toConn, .text "SYSTEM" "Group already exists")]))
    ∧ (lookupGroup st.groups name = none →
        (handle_group_create hashp st C name pin now).1.groups
            = st.groups ++ [⟨name, hashp pin, C, [C], now⟩]
        ∧ groupMembers (handle_group_create hashp st C name pin now).1 name = [C]
        ∧ C ∈ groupMembers (handle_group_create hashp st C name pin now).1 name) := by
  constructor
  · intro grp hL
    unfold handle_group_create
    rw [if_neg (by simp [hname, hpin]), hL]
  · intro hL
    have hstate : (handle_group_create hashp st C name pin now).1
        = { st with groups := st.groups ++ [⟨name, hashp pin, C, [C], now⟩] } := by
      unfold handle_group_create
      rw [if_neg (by simp [hname, hpin]), hL]
    have hmem : groupMembers (handle_group_create hashp st C name pin now).1 name
        = [C] := by
      rw [hstate]
      unfold groupMembers
      simp only
      rw [lookupGroup_append st.groups name ⟨name, hashp pin, C, [C], now⟩ hL
        (by simp)]
      rfl
    refine ⟨by rw [hstate], hmem, ?_⟩
    rw [hmem]
    simp

/-- Witness for C9: creating `"team"` in an empty store, and attempting to
re-create it afterwards. -/
theorem C9_group_create_witness :
    groupMembers (handle_group_create (fun s => s)
        ⟨[], [], [], [], []⟩ "c" "team" "1234" 3).1 "team" = ["c"]
    ∧ handle_group_create (fun s => s)
        ⟨[], [], [⟨"team", "1234", "c", ["c"], 3⟩], [], []⟩ "d" "team" "1234" 4
      = (⟨[], [], [⟨"team", "1234", "c", ["c"], 3⟩], [], []⟩,
         [(.toConn, .text "SYSTEM" "Group already exists")]) :=
  ⟨((C9_group_create (fun s => s) ⟨[], [], [], [], []⟩ "c" "team" "1234" 3
      (by decide) (by decide)).2 (by rfl)).2.1,
   (C9_group_create (fun s => s) ⟨[], [], [⟨"team", "1234", "c", ["c"], 3⟩], [], []⟩
      "d" "team" "1234" 4 (by decide) (by decide)).1
     ⟨"team", "1234", "c", ["c"], 3⟩ (by rfl)⟩

end LinkAPP

namespace LinkAPP

theorem handle_group_add_user_succ (st : ServerState) (R g target : String)
    (hg : g ≠ "") (ht : target ≠ "") (grp : GroupRec)
    (hL : lookupGroup st.groups g = some grp) (hcr : grp.creator = R)
    (hex : (st.users.lookup target).isSome = true) (hnm : target ∉ grp.members) :
    handle_group_add_user st R g target
      = ({ st with groups := updateGroupMembers st.groups g (grp.members ++ [target]) },
         [(.toConn, .text "SYSTEM" ("Added " ++ target ++ " to " ++ g))]
         ++ (if target ∈ st.clients then
              send_groups_list
                { st with groups := updateGroupMembers st.groups g (grp.members ++ [target]) }
                (.toUser target) target
              ++ [((Dest.toUser target), ServerMsg.text "SYSTEM"
                    ("You were added to \x27" ++ g ++ "\x27"))]
             else [])
         ++ broadcast_to_group
              { st with groups := updateGroupMembers st.groups g (grp.members ++ [target]) }
              g (.groupMsg g "SYSTEM" (target ++ " added by creator")) none) := by
  unfold handle_group_add_user
  rw [if_neg (by simp [hg, ht]), hL]
  simp only
  rw [if_neg (by simp [hcr]),
    if_neg (by cases hlu : st.users.lookup target <;> simp_all),
    if_neg hnm]

/-- C7: `group_add_user(room, target)` requested by `R` fails with a system
text and leaves the membership untouched when `R` is not the stored
creator, when `target` is not a registered identity, or when `target` is
already a member; otherwise `target` is appended and persisted, `R` gets a
success notice, and an online `target` receives a `my_groups_list`
containing the group (with its creator) together with a system notice. -/
theorem C7_group_add_user (st : ServerState) (R g target : String)
    (hg : g ≠ "") (ht : target ≠ "") :
    ∀ grp, lookupGroup st.groups g = some grp →
      (grp.creator ≠ R →
        handle_group_add_user st R g target
          = (st, [(.toConn, .text "SYSTEM" "Only creator can add users")]))
      ∧ (grp.creator = R → st.users.lookup target = none →
        handle_group_add_user st R g target
          = (st, [(.toConn, .text "SYSTEM" "User not found")]))
      ∧ (grp.creator = R → (st.users.lookup target).isSome = true →
          target ∈ grp.members →
        handle_group_add_user st R g target
          = (st, [(.toConn, .text "SYSTEM" "User already in group")]))
      ∧ (grp.creator = R → (st.users.lookup target).isSome = true →
          target ∉ grp.members →
          groupMembers (handle_group_add_user st R g target).1 g
              = grp.members ++ [target]
          ∧ (.toConn, .text "SYSTEM" ("Added " ++ target ++ " to " ++ g))
              ∈ (handle_group_add_user st R g target).2
          ∧ (target ∈ st.clients →
              (∃ L, ((Dest.toUser target), ServerMsg.myGroupsList L)
                  ∈ (handle_group_add_user st R g target).2
                ∧ (g, grp.creator) ∈ L)
              ∧ ((Dest.toUser target), ServerMsg.text "SYSTEM"
                    ("You were added to \x27" ++ g ++ "\x27"))
                  ∈ (handle_group_add_user st R g target).2)) := by
  intro grp hL
  refine ⟨?_, ?_, ?_, ?_⟩
  · intro hne
    unfold handle_group_add_user
    rw [if_neg (by simp [hg, ht]), hL]
    simp only
    rw [if_pos hne]
  · intro hcr hnone
    unfold handle_group_add_user
    rw [if_neg (by simp [hg, ht]), hL]
    simp only
    rw [if_neg (by simp [hcr]), if_pos (by simp [hnone])]
  · intro hcr hex hmem
    unfold handle_group_add_user
    rw [if_neg (by simp [hg, ht]), hL]
    simp only
    rw [if_neg (by simp [hcr]),
      if_neg (by cases hlu : st.users.lookup target <;> simp_all),
      if_pos hmem]
  · intro hcr hex hnm
    rw [handle_group_add_user_succ st R g target hg ht grp hL hcr hex hnm]
    have hgm := grp_mem_of_lookupGroup hL
    refine ⟨?_, ?_, ?_⟩
    · unfold groupMembers
      simp only
      rw [lookupGroup_update_self st.groups g (grp.members ++ [target]) grp hL]
      rfl
    · simp
    · intro hon
      have hmem' : ({ grp with members := grp.members ++ [target] } : GroupRec)
          ∈ updateGroupMembers st.groups g (grp.members ++ [target]) := by
        unfold updateGroupMembers
        have hmm := List.mem_map_of_mem
          (fun r => if (r.name == g) = true
            then { r with members := grp.members ++ [target] } else r) hgm.1
        simpa [hgm.2] using hmm
      constructor
      · refine ⟨my_groups
          { st with groups := updateGroupMembers st.groups g (grp.members ++ [target]) }
          target, ?_, ?_⟩
        · simp only [if_pos hon]
          simp [send_groups_list]
        · unfold my_groups
          have hf : ({ grp with members := grp.members ++ [target] } : GroupRec)
              ∈ List.filter (fun r => target ∈ r.members)
                  (updateGroupMembers st.groups g (grp.members ++ [target])) :=
            List.mem_filter.mpr ⟨hmem', by simp⟩
          have hmm2 := List.mem_map_of_mem (fun (r : GroupRec) => (r.name, r.creator)) hf
          simpa [hgm.2] using hmm2
      · simp only [if_pos hon]
        simp

/-- Witness for C7 on a concrete group: a non-creator request is rejected,
and the creator adds the online registered identity `"u"`, which then
appears in the pushed `my_groups_list`. -/
theorem C7_group_add_user_witness :
    handle_group_add_user
        ⟨[("c", "h"), ("u", "h")], [], [⟨"team", "p", "c", ["c"], 0⟩], ["u"], []⟩
        "u" "team" "u"
      = (⟨[("c", "h"), ("u", "h")], [], [⟨"team", "p", "c", ["c"], 0⟩], ["u"], []⟩,
         [(.toConn, .text "SYSTEM" "Only creator can add users")])
    ∧ groupMembers (handle_group_add_user
        ⟨[("c", "h"), ("u", "h")], [], [⟨"team", "p", "c", ["c"], 0⟩], ["u"], []⟩
        "c" "team" "u").1 "team" = ["c", "u"]
    ∧ (∃ L, ((Dest.toUser "u"), ServerMsg.myGroupsList L)
          ∈ (handle_group_add_user
              ⟨[("c", "h"), ("u", "h")], [], [⟨"team", "p", "c", ["c"], 0⟩], ["u"], []⟩
              "c" "team" "u").2
        ∧ ("team", "c") ∈ L) := by
  refine ⟨?_, ?_, ?_⟩
  · exact (C7_group_add_user
      ⟨[("c", "h"), ("u", "h")], [], [⟨"team", "p", "c", ["c"], 0⟩], ["u"], []⟩
      "u" "team" "u" (by decide) (by decide) ⟨"team", "p", "c", ["c"], 0⟩ (by rfl)).1
      (by decide)
  · exact ((C7_group_add_user
      ⟨[("c", "h"), ("u", "h")], [], [⟨"team", "p", "c", ["c"], 0⟩], ["u"], []⟩
      "c" "team" "u" (by decide) (by decide) ⟨"team", "p", "c", ["c"], 0⟩ (by rfl)).2.2.2
      (by rfl) (by decide) (by decide)).1
  · exact (((C7_group_add_user
      ⟨[("c", "h"), ("u", "h")], [], [⟨"team", "p", "c", ["c"], 0⟩], ["u"], []⟩
      "c" "team" "u" (by decide) (by decide) ⟨"team", "p", "c", ["c"], 0⟩ (by rfl)).2.2.2
      (by rfl) (by decide) (by decide)).2.2 (by decide)).1

end LinkAPP

namespace LinkAPP

theorem handle_group_call_accept_roster (st : ServerState) (u g : String)
    (hg : g ≠ "") :
    rosterOf (handle_group_call_accept st u g).1 g
      = (if u ∈ rosterOf st g then rosterOf st g else rosterOf st g ++ [u]) := by
  unfold handle_group_call_accept rosterOf
  rw [if_neg hg]
  simp only
  rw [lookup_dictInsert_self]
  rfl

theorem handle_group_call_accept_out (st : ServerState) (u g : String)
    (hg : g ≠ "") :
    (handle_group_call_accept st u g).2
      = ((groupMembers st g).filter (fun m => m ∈ st.clients)).map
          (fun m => ((Dest.toUser m), ServerMsg.groupCallAccept g u)) := by
  unfold handle_group_call_accept
  rw [if_neg hg]
  simp only
  unfold broadcast_to_group groupMembers
  cases hL : lookupGroup st.groups g with
  | none => simp
  | some grp =>
      simp only [Option.map_some', Option.getD_some]
      congr 1
      apply List.filter_congr
      intro x _
      simp

/-- C8: `group_call_accept` is idempotent on the in-memory call roster —
the accepter is inserted only when absent, so a repeated accept leaves the
roster exactly as after the first — every accept (repeated ones included)
re-broadcasts a `group_call_accept` to every connected member of the whole
group with no exclusion, and no server operation ever removes a
participant from any roster. -/
theorem C8_group_call_accept (hashp : String → String) (st : ServerState)
    (u g : String) (hg : g ≠ "") :
    rosterOf (handle_group_call_accept st u g).1 g
        = (if u ∈ rosterOf st g then rosterOf st g else rosterOf st g ++ [u])
    ∧ u ∈ rosterOf (handle_group_call_accept st u g).1 g
    ∧ rosterOf (handle_group_call_accept (handle_group_call_accept st u g).1 u g).1 g
        = rosterOf (handle_group_call_accept st u g).1 g
    ∧ (∀ st₂ : ServerState, (handle_group_call_accept st₂ u g).2
        = ((groupMembers st₂ g).filter (fun m => m ∈ st₂.clients)).map
            (fun m => ((Dest.toUser m), ServerMsg.groupCallAccept g u)))
    ∧ (∀ ev g', rosterOf st g' ⊆ rosterOf (serverStep hashp st ev).1 g') := by
  have h1 := handle_group_call_accept_roster st u g hg
  have hu : u ∈ rosterOf (handle_group_call_accept st u g).1 g := by
    rw [h1]
    by_cases hin : u ∈ rosterOf st g
    · rw [if_pos hin]
      exact hin
    · rw [if_neg hin]
      simp
  refine ⟨h1, hu, ?_, ?_, ?_⟩
  · rw [handle_group_call_accept_roster _ u g hg, if_pos hu]
  · intro st₂
    exact handle_group_call_accept_out st₂ u g hg
  · intro ev g'
    exact serverStep_roster_mono hashp st ev g'

/-- Witness for C8: `"v"` accepts the call in room `"team"` twice in a row
from a state whose roster already holds `"w"`. -/
theorem C8_group_call_accept_witness :
    rosterOf (handle_group_call_accept
        ⟨[], [], [⟨"team", "p", "c", ["v", "w"], 0⟩], ["v", "w"], [("team", ["w"])]⟩
        "v" "team").1 "team" = ["w", "v"]
    ∧ rosterOf (handle_group_call_accept (handle_group_call_accept
        ⟨[], [], [⟨"team", "p", "c", ["v", "w"], 0⟩], ["v", "w"], [("team", ["w"])]⟩
        "v" "team").1 "v" "team").1 "team"
      = rosterOf (handle_group_call_accept
        ⟨[], [], [⟨"team", "p", "c", ["v", "w"], 0⟩], ["v", "w"], [("team", ["w"])]⟩
        "v" "team").1 "team"
    ∧ (handle_group_call_accept
        ⟨[], [], [⟨"team", "p", "c", ["v", "w"], 0⟩], ["v", "w"], [("team", ["w"])]⟩
        "v" "team").2
      = [((Dest.toUser "v"), ServerMsg.groupCallAccept "team" "v"),
         ((Dest.toUser "w"), ServerMsg.groupCallAccept "team" "v")] := by
  have h := C8_group_call_accept (fun s => s)
    ⟨[], [], [⟨"team", "p", "c", ["v", "w"], 0⟩], ["v", "w"], [("team", ["w"])]⟩
    "v" "team" (by decide)
  refine ⟨?_, h.2.2.1, ?_⟩
  · rw [h.1]
    rfl
  · rw [h.2.2.2.1 ⟨[], [], [⟨"team", "p", "c", ["v", "w"], 0⟩], ["v", "w"],
      [("team", ["w"])]⟩]
    rfl

end LinkAPP

namespace LinkAPP

/-- C1 (amended): a `req_history` request from `U` with partner `P` answers
one `history` push whose entries are exactly the matching rows — rows whose
(sender, receiver) pair is `{U, P}` in either order — sorted ascending by
timestamp, truncated to the first 50 of that ascending order, i.e. the 50
**oldest** matching records when more than 50 exist (`ORDER BY timestamp
ASC LIMIT 50`), each entry's content being the stored blob decrypted in
place; decryption recovers the original plaintext for every encryptable
plaintext. -/
theorem C1_message_history (st : ServerState) (U P : String) (hP : P ≠ "") :
    send_message_history st U P
      = [(.toConn, .historyMsg P ((history_rows st U P).map
          (fun r => ⟨r.sender, decrypt_data r.content, r.msg_type⟩)))]
    ∧ (history_rows st U P).length ≤ 50
    ∧ List.Sorted tsLe (history_rows st U P)
    ∧ (∀ r ∈ history_rows st U P, pairMatch U P r = true ∧ r ∈ st.messages)
    ∧ (∀ r ∈ history_rows st U P,
        ∀ d ∈ (List.insertionSort tsLe (st.messages.filter (pairMatch U P))).drop 50,
          r.timestamp ≤ d.timestamp)
    ∧ (∀ m : String, m ≠ "" →
        (∀ b ∈ xorFrom 0 (m.toList.map Char.toNat), b < 256) →
        decrypt_data (encrypt_data m) = some m) := by
  have hsorted : List.Sorted tsLe
      (List.insertionSort tsLe (st.messages.filter (pairMatch U P))) :=
    List.sorted_insertionSort tsLe _
  have hperm := List.perm_insertionSort tsLe (st.messages.filter (pairMatch U P))
  refine ⟨?_, ?_, ?_, ?_, ?_, ?_⟩
  · unfold send_message_history
    rw [if_neg hP]
  · exact List.length_take_le 50 _
  · exact List.Pairwise.sublist (List.take_sublist 50 _) hsorted
  · intro r hr
    have hr2 : r ∈ st.messages.filter (pairMatch U P) :=
      hperm.mem_iff.mp (List.mem_of_mem_take hr)
    exact ⟨List.of_mem_filter hr2, List.mem_of_mem_filter hr2⟩
  · intro r hr d hd
    have hp : List.Pairwise tsLe
        ((List.insertionSort tsLe (st.messages.filter (pairMatch U P))).take 50
          ++ (List.insertionSort tsLe (st.messages.filter (pairMatch U P))).drop 50) := by
      rw [List.take_append_drop]
      exact hsorted
    exact (List.pairwise_append.mp hp).2.2 r hr d hd
  · exact fun m hm hb => encrypt_decrypt_roundtrip m hm hb

/-- Witness for C1 on a one-record store. -/
theorem C1_message_history_witness :
    send_message_history
        ⟨[], [⟨"a", "b", encrypt_data "hi", "text", 1⟩], [], [], []⟩ "a" "b"
      = [(.toConn, .historyMsg "b" [⟨"a", some "hi", "text"⟩])] := by
  have h := (C1_message_history
    ⟨[], [⟨"a", "b", encrypt_data "hi", "text", 1⟩], [], [], []⟩ "a" "b"
    (by decide)).1
  rw [h]
  decide

/-- C1 counterexample: with 51 matching records the fetch answers the 50
oldest, not the 50 most recent: the uniquely most recent record (the one
decrypting to `"new"`) is missing from the answer, every returned entry
decrypting to `"old"`. -/
theorem C1_message_history_counterexample :
    (stHist51.messages.filter (pairMatch "a" "b")).length = 51
    ∧ send_message_history stHist51 "a" "b"
      = [(.toConn, .historyMsg "b"
          (List.replicate 50 ⟨"a", some "old", "text"⟩))]
    ∧ (∃ r ∈ stHist51.messages, pairMatch "a" "b" r = true
        ∧ decrypt_data r.content = some "new"
        ∧ ∀ r2 ∈ stHist51.messages, r2.timestamp ≤ r.timestamp)
    ∧ ((List.replicate 50 (⟨"a", some "old", "text"⟩ : HistEntry)).all
        (fun e => e.content ≠ some "new")) = true := by
  decide

end LinkAPP

namespace LinkAPP

/-! ## Lemmas about the UDP relays -/

theorem takeWhile_all {α : Type} (p : α → Bool) (u : List α)
    (h : ∀ b ∈ u, p b = true) : u.takeWhile p = u := by
  induction u with
  | nil => rfl
  | cons a t ih =>
      simp only [List.takeWhile_cons, h a (List.mem_cons_self a t), if_true]
      rw [ih (fun b hb => h b (List.mem_cons_of_mem a hb))]

theorem takeWhile_append_stop {α : Type} (p : α → Bool) (u t : List α) (x : α)
    (hu : ∀ b ∈ u, p b = true) (hx : p x = false) :
    (u ++ x :: t).takeWhile p = u := by
  induction u with
  | nil => simp [List.takeWhile_cons, hx]
  | cons a s ih =>
      simp only [List.cons_append, List.takeWhile_cons,
        hu a (List.mem_cons_self a s), if_true]
      rw [ih (fun b hb => hu b (List.mem_cons_of_mem a hb))]

theorem dropWhile_append_stop {α : Type} (p : α → Bool) (u t : List α) (x : α)
    (hu : ∀ b ∈ u, p b = true) (hx : p x = false) :
    (u ++ x :: t).dropWhile p = x :: t := by
  induction u with
  | nil => simp [List.dropWhile_cons, hx]
  | cons a s ih =>
      simp only [List.cons_append, List.dropWhile_cons,
        hu a (List.mem_cons_self a s), if_true]
      exact ih (fun b hb => hu b (List.mem_cons_of_mem a hb))

theorem splitNul_eq (u payload : List Nat) (hu : 0 ∉ u) :
    splitNul (u ++ 0 :: payload) = some (u, payload) := by
  have hp : ∀ b ∈ u, (fun b => decide (b ≠ 0)) b = true :=
    fun b hb => decide_eq_true (fun he => hu (he ▸ hb))
  unfold splitNul
  rw [if_pos (by simp)]
  rw [takeWhile_append_stop _ u payload 0 hp (by simp),
    dropWhile_append_stop _ u payload 0 hp (by simp)]
  rfl

theorem relayStep_REG (gt pt : Nat) (eps : List (List Nat × Nat))
    (gcs : List (List Nat × List (List Nat))) (u : List Nat) (e : Nat)
    (hu1 : 58 ∉ u) :
    relayStep gt pt eps gcs (REGbytes ++ u) e = (dictInsert u e eps, []) := by
  have ht : ((REGbytes ++ u).drop 4).takeWhile (fun b => b ≠ 58) = u := by
    rw [show (REGbytes ++ u).drop 4 = u from rfl]
    exact takeWhile_all _ u (fun b hb => decide_eq_true (fun he => hu1 (he ▸ hb)))
  unfold relayStep
  rw [if_pos (show startsWithB REGbytes (REGbytes ++ u) = true from rfl)]
  show (dictInsert (((REGbytes ++ u).drop 4).takeWhile (fun b => b ≠ 58)) e eps, []) = _
  rw [ht]

theorem relayStep_priv (gt pt : Nat) (hne : pt ≠ gt) (hne82 : (82 == pt) = false)
    (eps : List (List Nat × Nat)) (gcs : List (List Nat × List (List Nat)))
    (u : List Nat) (e : Nat) (payload : List Nat) (hu2 : 0 ∉ u) :
    relayStep gt pt eps gcs (pt :: (u ++ 0 :: payload)) e
      = (eps, match eps.lookup u with
              | some a => [(a, payload)]
              | none => []) := by
  unfold relayStep
  rw [if_neg (by simp [startsWithB, REGbytes, hne82]),
    if_neg (by simp [hne]),
    if_pos (show (pt :: (u ++ 0 :: payload)).head? = some pt from rfl)]
  show (match splitNul ((pt :: (u ++ 0 :: payload)).drop 1) with
        | none => (eps, [])
        | some (target, payload) =>
            match eps.lookup target with
            | some a => (eps, [(a, payload)])
            | none => (eps, [])) = _
  rw [show (pt :: (u ++ 0 :: payload)).drop 1 = u ++ 0 :: payload from rfl,
    splitNul_eq u payload hu2]
  show (match List.lookup u eps with
        | some a => (eps, [(a, payload)])
        | none => (eps, [])) = _
  cases List.lookup u eps <;> rfl

/-- C6: on the UDP audio relay (group tag `G` = 71, private tag `A` = 65)
and likewise on the video relay (`H` = 72, `V` = 86): a `REG:u` datagram
arriving from endpoint `e` leaves `u`'s entry in that relay's endpoint
table equal to `e`, overwriting any earlier binding, with nothing sent;
a private-tagged datagram (tag byte, then `u`'s bytes, a NUL, the payload)
is then forwarded with the payload bytes unchanged to `u`'s most recently
registered endpoint, and when `u` has no registered endpoint it is dropped
with nothing sent back.  `u` ranges over identity encodings free of `':'`
(58) and NUL (0) bytes. -/
theorem C6_udp_relay (gt pt : Nat)
    (hgp : (gt, pt) = (71, 65) ∨ (gt, pt) = (72, 86))
    (eps : List (List Nat × Nat)) (gcs : List (List Nat × List (List Nat)))
    (u : List Nat) (e : Nat) (payload : List Nat)
    (hu1 : 58 ∉ u) (hu2 : 0 ∉ u) :
    ((relayStep gt pt eps gcs (REGbytes ++ u) e).1.lookup u = some e
      ∧ (relayStep gt pt eps gcs (REGbytes ++ u) e).2 = [])
    ∧ (∀ e', eps.lookup u = some e' →
        relayStep gt pt eps gcs (pt :: (u ++ 0 :: payload)) e
          = (eps, [(e', payload)]))
    ∧ (eps.lookup u = none →
        relayStep gt pt eps gcs (pt :: (u ++ 0 :: payload)) e = (eps, [])) := by
  have hne : pt ≠ gt := by
    rcases hgp with h | h <;> (injection h with h1 h2; subst h1; subst h2; decide)
  have hne82 : (82 == pt) = false := by
    rcases hgp with h | h <;> (injection h with h1 h2; subst h1; subst h2; decide)
  refine ⟨⟨?_, ?_⟩, ?_, ?_⟩
  · rw [relayStep_REG gt pt eps gcs u e hu1]
    exact lookup_dictInsert_self u e eps
  · rw [relayStep_REG gt pt eps gcs u e hu1]
  · intro e' he'
    rw [relayStep_priv gt pt hne hne82 eps gcs u e payload hu2, he']
  · intro hnone
    rw [relayStep_priv gt pt hne hne82 eps gcs u e payload hu2, hnone]

/-- Witness for C6 on both relays with identity bytes `[97]` (`"a"`):
register, forward, and drop at concrete tables. -/
theorem C6_udp_relay_witness :
    ((udp_audio_step [([97], 5)] [] (REGbytes ++ [97]) 9).1.lookup [97] = some 9
      ∧ (udp_audio_step [([97], 5)] [] (REGbytes ++ [97]) 9).2 = [])
    ∧ udp_audio_step [([97], 9)] [] (65 :: ([97] ++ 0 :: [1, 2, 3])) 4
        = ([([97], 9)], [(9, [1, 2, 3])])
    ∧ udp_video_step [] [] (86 :: ([97] ++ 0 :: [1, 2, 3])) 4 = ([], []) := by
  have ha := C6_udp_relay 71 65 (Or.inl rfl) [([97], 5)] [] [97] 9 [1, 2, 3]
    (by decide) (by decide)
  have hb := C6_udp_relay 71 65 (Or.inl rfl) [([97], 9)] [] [97] 4 [1, 2, 3]
    (by decide) (by decide)
  have hc := C6_udp_relay 72 86 (Or.inr rfl) [] [] [97] 4 [1, 2, 3]
    (by decide) (by decide)
  exact ⟨ha.1, hb.2.1 9 (by decide), hc.2.2 (by decide)⟩

end LinkAPP
